import Mathlib

/-!
# Verification of the srt-test caption validator

Shallow embedding of the Go repository `theCompanyDream/srt-test`:
the SRT/WebVTT caption parsers (`internal/parse/srt.go`,
`internal/parse/caption.go`), the text aggregator (`ExtractAllText`) and
the coverage evaluator (`internal/utils/validate`'s `ValidateCoverage`,
duplicated verbatim as `validateCoverage` in `main.go`).

Modelling conventions:
* Go strings are modelled as `List Char`.  The parsers consume the input
  line by line (Go's `bufio.Scanner` with the default line splitter), so
  the embedded parsers take a `List (List Char)` of lines and the
  I/O-error result of `scanner.Err()` (always `nil` for in-memory input)
  is not modelled.
* `time.Duration` (an `int64` count of nanoseconds) is modelled as `Int`
  together with the two's-complement wrap `wrap64` applied exactly where
  Go's duration arithmetic can overflow silently: the overlap
  subtraction and the running addition inside `ValidateCoverage`'s
  accumulator, and the window-length subtraction `tEnd - tStart`.
  Comparisons and `max`/`min` never wrap.  The timestamp codecs'
  arithmetic is kept unbounded: every value reachable through the
  two/three-digit fields the verified claims quantify over stays far
  below `2^63`, so no wrap can fire there.
* `strconv.Atoi`'s two error values `ErrSyntax` and `ErrRange` are
  modelled by `AtoiErr.invalid` and `AtoiErr.outOfRange`.
* `float64` division in `ValidateCoverage` is modelled as exact rational
  division; every claim proved about `ValidateCoverage` depends only on
  the degenerate-window early return and on the integer accumulator, not
  on rounding of the final quotient.
* `strings.TrimSpace` is modelled on its ASCII whitespace set
  (`'\t' '\n' '\v' '\f' '\r' ' '`); the Unicode space code points it
  also trims do not occur in any input considered here.
-/

namespace SrtTest

/-! ## Character and string primitives -/

/-- The ASCII whitespace set of Go's `strings.TrimSpace`
(`asciiSpace`: tab, newline, vertical tab, form feed, carriage return,
space). -/
def isSpaceChar (c : Char) : Bool :=
  c = ' ' || c = '\t' || c = '\n' || c = '\x0b' || c = '\x0c' || c = '\r'

/-- The character class `\s` of Go's `regexp` (RE2): `[\t\n\f\r ]`.
Note it does not contain the vertical tab. -/
def isRegexSpace (c : Char) : Bool :=
  c = ' ' || c = '\t' || c = '\n' || c = '\x0c' || c = '\r'

/-- Go `strings.TrimSpace` (ASCII fast path): drop leading and trailing
whitespace. -/
def trimSpace (l : List Char) : List Char :=
  ((l.dropWhile isSpaceChar).reverse.dropWhile isSpaceChar).reverse

/-- Go `strings.Split(s, sep)` for a single-character separator: split
around every occurrence of `sep`, keeping empty fields
(`Split("", sep) = [""]`). -/
def splitOnChar (sep : Char) : List Char → List (List Char)
  | [] => [[]]
  | c :: cs =>
    if c = sep then [] :: splitOnChar sep cs
    else
      match splitOnChar sep cs with
      | [] => [[c]]
      | h :: t => (c :: h) :: t

/-- Go `strings.Join(parts, " ")`. -/
def joinWithSpace : List (List Char) → List Char
  | [] => []
  | [x] => x
  | x :: xs => x ++ ' ' :: joinWithSpace xs

/-! ## `strconv.Atoi` -/

/-- The two error values of Go's `strconv` package: `ErrSyntax`
(non-numeric input) and `ErrRange` (value outside `int64`). -/
inductive AtoiErr where
  | invalid
  | outOfRange
deriving DecidableEq

/-- Decimal value of a list of digit characters (the accumulation loop of
`strconv.Atoi`'s fast path). -/
def digitsVal (ds : List Char) : Nat :=
  ds.foldl (fun n c => n * 10 + (c.toNat - 48)) 0

def allDigits (ds : List Char) : Bool := ds.all Char.isDigit

def int64Min : Int := -9223372036854775808

def int64Max : Int := 9223372036854775807

/-- Two's-complement wrap-around of Go's `int64` arithmetic: reduce an
exact integer into `[-2^63, 2^63)`. -/
def wrap64 (x : Int) : Int :=
  (x + 9223372036854775808) % 18446744073709551616 - 9223372036854775808

/-- Range and sign post-processing of `strconv.Atoi`: reject values
outside `int64`. -/
def atoiFin (v : Int) : Except AtoiErr Int :=
  if v < int64Min ∨ int64Max < v then .error .outOfRange else .ok v

/-- Digit-scanning part of `strconv.Atoi`, after the sign (if any) has
been stripped; `c` is the first character of the original string. -/
def atoiGo (c : Char) (ds : List Char) : Except AtoiErr Int :=
  if ds = [] then .error .invalid
  else if allDigits ds then
    atoiFin (if c = '-' then -(digitsVal ds : Int) else (digitsVal ds : Int))
  else .error .invalid

/-- Go `strconv.Atoi`: optional sign, at least one character, all
remaining characters decimal digits, value within `int64`. -/
def Atoi (s : List Char) : Except AtoiErr Int :=
  match s with
  | [] => .error .invalid
  | c :: cs => atoiGo c (if c = '-' ∨ c = '+' then cs else c :: cs)

/-! ## Timestamp codecs -/

/-- Error kinds of the two timestamp codecs: the `"invalid time format"`
return, the `"invalid seconds format"` return, and a propagated
`strconv.Atoi` error. -/
inductive TimeError where
  | invalidTimeFormat
  | invalidSecondsFormat
  | numError (e : AtoiErr)
deriving DecidableEq

/-- Model of `parseSRTTime` from `internal/parse/srt.go`: format `HH:MM:SS,mmm`;
result is `time.Duration(totalMilliseconds) * time.Millisecond`, i.e. the
total number of milliseconds times `10^6` nanoseconds. -/
def parseSRTTime (timeStr : List Char) : Except TimeError Int :=
  match splitOnChar ':' timeStr with
  | [p0, p1, p2] =>
    match Atoi p0 with
    | .error e => .error (.numError e)
    | .ok hours =>
      match Atoi p1 with
      | .error e => .error (.numError e)
      | .ok minutes =>
        match splitOnChar ',' p2 with
        | [s0, s1] =>
          match Atoi s0 with
          | .error e => .error (.numError e)
          | .ok seconds =>
            match Atoi s1 with
            | .error e => .error (.numError e)
            | .ok milliseconds =>
              .ok ((hours * 3600000 + minutes * 60000 + seconds * 1000 + milliseconds)
                    * 1000000)
        | _ => .error .invalidSecondsFormat
  | _ => .error .invalidTimeFormat

/-- Model of `parseWebVTTTime` from `internal/parse/caption.go`: identical to
`parseSRTTime` except the sub-second separator is `'.'`. -/
def parseWebVTTTime (timeStr : List Char) : Except TimeError Int :=
  match splitOnChar ':' timeStr with
  | [p0, p1, p2] =>
    match Atoi p0 with
    | .error e => .error (.numError e)
    | .ok hours =>
      match Atoi p1 with
      | .error e => .error (.numError e)
      | .ok minutes =>
        match splitOnChar '.' p2 with
        | [s0, s1] =>
          match Atoi s0 with
          | .error e => .error (.numError e)
          | .ok seconds =>
            match Atoi s1 with
            | .error e => .error (.numError e)
            | .ok milliseconds =>
              .ok ((hours * 3600000 + minutes * 60000 + seconds * 1000 + milliseconds)
                    * 1000000)
        | _ => .error .invalidSecondsFormat
  | _ => .error .invalidTimeFormat

/-- Decimal value of a digit character, as an integer. -/
def dv (c : Char) : Int := (c.toNat : Int) - 48

instance exceptDecidableEq {ε α : Type} [DecidableEq ε] [DecidableEq α] :
    DecidableEq (Except ε α) := fun x y =>
  match x, y with
  | .ok a, .ok b =>
    if h : a = b then .isTrue (by rw [h]) else .isFalse fun he => h (Except.ok.inj he)
  | .error e, .error f =>
    if h : e = f then .isTrue (by rw [h]) else .isFalse fun he => h (Except.error.inj he)
  | .ok _, .error _ => .isFalse fun he => Except.noConfusion he
  | .error _, .ok _ => .isFalse fun he => Except.noConfusion he

/-! ## Basic lemmas about the primitives -/

theorem isDigit_bounds {c : Char} (h : c.isDigit = true) :
    48 ≤ c.toNat ∧ c.toNat ≤ 57 := by
  simp [Char.isDigit] at h
  exact ⟨h.1, h.2⟩

theorem digit_ne {c d : Char} (h : c.isDigit = true) (hd : d.isDigit = false) :
    c ≠ d := by
  intro he
  subst he
  rw [h] at hd
  cases hd

theorem dv_nonneg {c : Char} (h : c.isDigit = true) : 0 ≤ dv c := by
  have := isDigit_bounds h
  unfold dv
  omega

theorem dv_le_nine {c : Char} (h : c.isDigit = true) : dv c ≤ 9 := by
  have := isDigit_bounds h
  unfold dv
  omega

theorem splitOnChar_ne_nil (sep : Char) (l : List Char) :
    splitOnChar sep l ≠ [] := by
  cases l with
  | nil => simp [splitOnChar]
  | cons c cs =>
    unfold splitOnChar
    by_cases h : c = sep
    · simp [h]
    · simp only [if_neg h]
      cases splitOnChar sep cs <;> simp

theorem splitOnChar_no_sep (sep : Char) (l : List Char)
    (h : ∀ c ∈ l, c ≠ sep) : splitOnChar sep l = [l] := by
  induction l with
  | nil => rfl
  | cons c cs ih =>
    have hc : c ≠ sep := h c (List.mem_cons_self c cs)
    have hrest : splitOnChar sep cs = [cs] :=
      ih fun x hx => h x (List.mem_cons_of_mem c hx)
    unfold splitOnChar
    rw [if_neg hc, hrest]

theorem splitOnChar_append_sep (sep : Char) (l1 l2 : List Char)
    (h : ∀ c ∈ l1, c ≠ sep) :
    splitOnChar sep (l1 ++ sep :: l2) = l1 :: splitOnChar sep l2 := by
  induction l1 with
  | nil =>
    simp only [List.nil_append]
    conv_lhs => unfold splitOnChar
    rw [if_pos rfl]
  | cons c cs ih =>
    have hc : c ≠ sep := h c (List.mem_cons_self c cs)
    have hrest := ih fun x hx => h x (List.mem_cons_of_mem c hx)
    simp only [List.cons_append]
    conv_lhs => unfold splitOnChar
    rw [if_neg hc, hrest]

theorem Atoi_two_digits {a b : Char} (ha : a.isDigit = true)
    (hb : b.isDigit = true) : Atoi [a, b] = .ok (10 * dv a + dv b) := by
  have hna : a ≠ '-' := digit_ne ha (by decide)
  have hpa : a ≠ '+' := digit_ne ha (by decide)
  have ⟨ha1, ha2⟩ := isDigit_bounds ha
  have ⟨hb1, hb2⟩ := isDigit_bounds hb
  have hor : ¬(a = '-' ∨ a = '+') := by
    rintro (h | h)
    · exact hna h
    · exact hpa h
  have hv : (digitsVal [a, b] : Int) = 10 * dv a + dv b := by
    unfold digitsVal dv
    simp only [List.foldl_cons, List.foldl_nil, Nat.zero_mul, Nat.zero_add]
    omega
  show atoiGo a (if a = '-' ∨ a = '+' then [b] else [a, b]) = _
  rw [if_neg hor]
  unfold atoiGo
  rw [if_neg (by simp), if_pos (by simp [allDigits, ha, hb]), if_neg hna]
  unfold atoiFin
  rw [if_neg, hv]
  rw [hv]
  unfold dv int64Min int64Max
  omega

theorem Atoi_three_digits {a b c : Char} (ha : a.isDigit = true)
    (hb : b.isDigit = true) (hc : c.isDigit = true) :
    Atoi [a, b, c] = .ok (100 * dv a + 10 * dv b + dv c) := by
  have hna : a ≠ '-' := digit_ne ha (by decide)
  have hpa : a ≠ '+' := digit_ne ha (by decide)
  have ⟨ha1, ha2⟩ := isDigit_bounds ha
  have ⟨hb1, hb2⟩ := isDigit_bounds hb
  have ⟨hc1, hc2⟩ := isDigit_bounds hc
  have hor : ¬(a = '-' ∨ a = '+') := by
    rintro (h | h)
    · exact hna h
    · exact hpa h
  have hv : (digitsVal [a, b, c] : Int) = 100 * dv a + 10 * dv b + dv c := by
    unfold digitsVal dv
    simp only [List.foldl_cons, List.foldl_nil, Nat.zero_mul, Nat.zero_add]
    omega
  show atoiGo a (if a = '-' ∨ a = '+' then [b, c] else [a, b, c]) = _
  rw [if_neg hor]
  unfold atoiGo
  rw [if_neg (by simp), if_pos (by simp [allDigits, ha, hb, hc]), if_neg hna]
  unfold atoiFin
  rw [if_neg, hv]
  rw [hv]
  unfold dv int64Min int64Max
  omega

theorem parseSRTTime_digits {h1 h2 m1 m2 s1 s2 d1 d2 d3 : Char}
    (hh1 : h1.isDigit = true) (hh2 : h2.isDigit = true)
    (hm1 : m1.isDigit = true) (hm2 : m2.isDigit = true)
    (hs1 : s1.isDigit = true) (hs2 : s2.isDigit = true)
    (hd1 : d1.isDigit = true) (hd2 : d2.isDigit = true)
    (hd3 : d3.isDigit = true) :
    parseSRTTime [h1, h2, ':', m1, m2, ':', s1, s2, ',', d1, d2, d3]
      = .ok (((10 * dv h1 + dv h2) * 3600000 + (10 * dv m1 + dv m2) * 60000
              + (10 * dv s1 + dv s2) * 1000
              + (100 * dv d1 + 10 * dv d2 + dv d3)) * 1000000) := by
  have hcolon : Char.isDigit ':' = false := by decide
  have hsplit1 : splitOnChar ':' [h1, h2, ':', m1, m2, ':', s1, s2, ',', d1, d2, d3]
      = [[h1, h2], [m1, m2], [s1, s2, ',', d1, d2, d3]] := by
    have he : [h1, h2, ':', m1, m2, ':', s1, s2, ',', d1, d2, d3]
        = [h1, h2] ++ ':' :: ([m1, m2] ++ ':' :: [s1, s2, ',', d1, d2, d3]) := rfl
    rw [he, splitOnChar_append_sep, splitOnChar_append_sep, splitOnChar_no_sep]
    · intro c hc
      simp only [List.mem_cons, List.not_mem_nil, or_false] at hc
      rcases hc with rfl | rfl | rfl | rfl | rfl | rfl <;> first
        | exact digit_ne (by assumption) hcolon
        | decide
    · intro c hc
      simp only [List.mem_cons, List.not_mem_nil, or_false] at hc
      rcases hc with rfl | rfl
      · exact digit_ne hm1 hcolon
      · exact digit_ne hm2 hcolon
    · intro c hc
      simp only [List.mem_cons, List.not_mem_nil, or_false] at hc
      rcases hc with rfl | rfl
      · exact digit_ne hh1 hcolon
      · exact digit_ne hh2 hcolon
  have hcomma : Char.isDigit ',' = false := by decide
  have hsplit2 : splitOnChar ',' [s1, s2, ',', d1, d2, d3]
      = [[s1, s2], [d1, d2, d3]] := by
    have he : [s1, s2, ',', d1, d2, d3] = [s1, s2] ++ ',' :: [d1, d2, d3] := rfl
    rw [he, splitOnChar_append_sep, splitOnChar_no_sep]
    · intro c hc
      simp only [List.mem_cons, List.not_mem_nil, or_false] at hc
      rcases hc with rfl | rfl | rfl
      · exact digit_ne hd1 hcomma
      · exact digit_ne hd2 hcomma
      · exact digit_ne hd3 hcomma
    · intro c hc
      simp only [List.mem_cons, List.not_mem_nil, or_false] at hc
      rcases hc with rfl | rfl
      · exact digit_ne hs1 hcomma
      · exact digit_ne hs2 hcomma
  simp only [parseSRTTime, hsplit1, hsplit2, Atoi_two_digits hh1 hh2,
    Atoi_two_digits hm1 hm2, Atoi_two_digits hs1 hs2,
    Atoi_three_digits hd1 hd2 hd3]

theorem parseWebVTTTime_digits {h1 h2 m1 m2 s1 s2 d1 d2 d3 : Char}
    (hh1 : h1.isDigit = true) (hh2 : h2.isDigit = true)
    (hm1 : m1.isDigit = true) (hm2 : m2.isDigit = true)
    (hs1 : s1.isDigit = true) (hs2 : s2.isDigit = true)
    (hd1 : d1.isDigit = true) (hd2 : d2.isDigit = true)
    (hd3 : d3.isDigit = true) :
    parseWebVTTTime [h1, h2, ':', m1, m2, ':', s1, s2, '.', d1, d2, d3]
      = .ok (((10 * dv h1 + dv h2) * 3600000 + (10 * dv m1 + dv m2) * 60000
              + (10 * dv s1 + dv s2) * 1000
              + (100 * dv d1 + 10 * dv d2 + dv d3)) * 1000000) := by
  have hcolon : Char.isDigit ':' = false := by decide
  have hsplit1 : splitOnChar ':' [h1, h2, ':', m1, m2, ':', s1, s2, '.', d1, d2, d3]
      = [[h1, h2], [m1, m2], [s1, s2, '.', d1, d2, d3]] := by
    have he : [h1, h2, ':', m1, m2, ':', s1, s2, '.', d1, d2, d3]
        = [h1, h2] ++ ':' :: ([m1, m2] ++ ':' :: [s1, s2, '.', d1, d2, d3]) := rfl
    rw [he, splitOnChar_append_sep, splitOnChar_append_sep, splitOnChar_no_sep]
    · intro c hc
      simp only [List.mem_cons, List.not_mem_nil, or_false] at hc
      rcases hc with rfl | rfl | rfl | rfl | rfl | rfl <;> first
        | exact digit_ne (by assumption) hcolon
        | decide
    · intro c hc
      simp only [List.mem_cons, List.not_mem_nil, or_false] at hc
      rcases hc with rfl | rfl
      · exact digit_ne hm1 hcolon
      · exact digit_ne hm2 hcolon
    · intro c hc
      simp only [List.mem_cons, List.not_mem_nil, or_false] at hc
      rcases hc with rfl | rfl
      · exact digit_ne hh1 hcolon
      · exact digit_ne hh2 hcolon
  have hdot : Char.isDigit '.' = false := by decide
  have hsplit2 : splitOnChar '.' [s1, s2, '.', d1, d2, d3]
      = [[s1, s2], [d1, d2, d3]] := by
    have he : [s1, s2, '.', d1, d2, d3] = [s1, s2] ++ '.' :: [d1, d2, d3] := rfl
    rw [he, splitOnChar_append_sep, splitOnChar_no_sep]
    · intro c hc
      simp only [List.mem_cons, List.not_mem_nil, or_false] at hc
      rcases hc with rfl | rfl | rfl
      · exact digit_ne hd1 hdot
      · exact digit_ne hd2 hdot
      · exact digit_ne hd3 hdot
    · intro c hc
      simp only [List.mem_cons, List.not_mem_nil, or_false] at hc
      rcases hc with rfl | rfl
      · exact digit_ne hs1 hdot
      · exact digit_ne hs2 hdot
  simp only [parseWebVTTTime, hsplit1, hsplit2, Atoi_two_digits hh1 hh2,
    Atoi_two_digits hm1 hm2, Atoi_two_digits hs1 hs2,
    Atoi_three_digits hd1 hd2 hd3]

/-! ## The timing regular expression

`ParseSRT` matches each line against
`(\d{2}:\d{2}:\d{2},\d{3})\s+-->\s+(\d{2}:\d{2}:\d{2},\d{3})` and
`ParseWebVTT` against the same pattern with `.` in place of `,`.  The
pattern is deterministic: the character classes `\d`, `\s` and the
literals `:`, `-`, `>` and the millisecond separator are pairwise
disjoint wherever choice matters, so `FindStringSubmatch` (leftmost
match) is modelled by trying the pattern at every start position from
the left. -/

/-- Does `c` start with the twelve-character capture-group shape
`\d{2}:\d{2}:\d{2}<sep>\d{3}` and nothing else? -/
def capShapeB (sep : Char) (c : List Char) : Bool :=
  match c with
  | [a1, a2, b1, c1, c2, b2, e1, e2, p, f1, f2, f3] =>
    a1.isDigit && a2.isDigit && b1 = ':' && c1.isDigit && c2.isDigit && b2 = ':' &&
    e1.isDigit && e2.isDigit && p = sep && f1.isDigit && f2.isDigit && f3.isDigit
  | _ => false

/-- Match one capture group `\d{2}:\d{2}:\d{2}<sep>\d{3}` at the head of
`l`; returns the captured text and the remainder. -/
def matchCap (sep : Char) (l : List Char) : Option (List Char × List Char) :=
  if capShapeB sep (l.take 12) then some (l.take 12, l.drop 12) else none

/-- Match `\s+` (greedy) at the head of `l`. -/
def skipSpaces1 : List Char → Option (List Char)
  | [] => none
  | c :: rest => if isRegexSpace c then some (rest.dropWhile isRegexSpace) else none

/-- Match the literal `-->` at the head of `l`. -/
def matchArrow : List Char → Option (List Char)
  | '-' :: '-' :: '>' :: rest => some rest
  | _ => none

/-- Try the whole timing pattern at the head of `l`; on success returns
the two capture groups (`matches[1]` and `matches[2]`). -/
def matchTimingAt (sep : Char) (l : List Char) : Option (List Char × List Char) :=
  match matchCap sep l with
  | none => none
  | some (c1, r1) =>
    match skipSpaces1 r1 with
    | none => none
    | some r2 =>
      match matchArrow r2 with
      | none => none
      | some r3 =>
        match skipSpaces1 r3 with
        | none => none
        | some r4 =>
          match matchCap sep r4 with
          | none => none
          | some (c2, _) => some (c1, c2)

/-- Model of `regexp.FindStringSubmatch` for the timing pattern: leftmost match,
returning the two capture groups. -/
def findTimingMatch (sep : Char) : List Char → Option (List Char × List Char)
  | [] => none
  | c :: rest =>
    match matchTimingAt sep (c :: rest) with
    | some r => some r
    | none => findTimingMatch sep rest

/-! ## Data model -/

/-- Model of `models.CaptionEntry`: start/end times (`time.Duration`, modelled as
nanosecond integers) and the caption text. -/
structure CaptionEntry where
  StartTime : Int
  EndTime : Int
  Text : List Char
deriving DecidableEq

/-! ## Coverage evaluator (`internal/utils`, duplicated in `main.go`) -/

/-- Model of `utils.MaxDuration` / `main.maxDuration`. -/
def maxDuration (a b : Int) : Int := if a > b then a else b

/-- Model of `utils.MinDuration` / `main.minDuration`. -/
def minDuration (a b : Int) : Int := if a < b then a else b

/-- The `coveredDuration` accumulation loop of `ValidateCoverage`; the
`overlapEnd - overlapStart` subtraction and the `+=` accumulation are
`int64` operations and wrap on overflow. -/
def coveredDuration (captions : List CaptionEntry) (tStart tEnd : Int) : Int :=
  captions.foldl
    (fun acc caption =>
      let overlapStart := maxDuration caption.StartTime tStart
      let overlapEnd := minDuration caption.EndTime tEnd
      if overlapStart < overlapEnd then wrap64 (acc + wrap64 (overlapEnd - overlapStart))
      else acc)
    0

/-- Model of `utils.ValidateCoverage` / `main.validateCoverage`.
`totalRange := tEnd - tStart` is an `int64` subtraction and wraps.  The
final `float64` division is modelled as exact rational division (see the
file header); the claims proved below depend only on the early return
and on `coveredDuration`. -/
def ValidateCoverage (captions : List CaptionEntry) (tStart tEnd : Int)
    (requiredCoverage : ℚ) : Bool :=
  let totalRange := wrap64 (tEnd - tStart)
  if totalRange ≤ 0 then false
  else
    decide (((coveredDuration captions tStart tEnd : ℚ) / (totalRange : ℚ))
              ≥ requiredCoverage)

/-! ## Text aggregator -/

/-- Model of `parse.ExtractAllText`: keep the (untrimmed) text of every entry
whose trimmed text is non-empty, join with a single space. -/
def ExtractAllText (captions : List CaptionEntry) : List Char :=
  joinWithSpace
    ((captions.filter fun caption => decide (trimSpace caption.Text ≠ [])).map
      CaptionEntry.Text)

/-! ## Block scanners -/

/-- The timing-parse failures `ParseSRT`/`ParseWebVTT` can return
(`"error parsing start time"` / `"error parsing end time"`). -/
inductive ParseError where
  | startTime (e : TimeError)
  | endTime (e : TimeError)
deriving DecidableEq

/-- Loop state of `ParseSRT`: accumulated captions, the current entry
being mutated in place, the accumulated text lines of the current block,
and the `expectingSequence` flag. -/
structure SRTState where
  captions : List CaptionEntry
  currentEntry : CaptionEntry
  textLines : List (List Char)
  expectingSequence : Bool
deriving DecidableEq

def initSRTState : SRTState :=
  ⟨[], ⟨0, 0, []⟩, [], true⟩

/-- One iteration of the `scanner.Scan()` loop of `ParseSRT`. -/
def stepSRT (st : SRTState) (rawLine : List Char) : Except ParseError SRTState :=
  let line := trimSpace rawLine
  if line = [] then
    if st.textLines = [] then .ok { st with expectingSequence := true }
    else
      .ok { st with
            currentEntry := { st.currentEntry with Text := joinWithSpace st.textLines },
            captions := st.captions
              ++ [{ st.currentEntry with Text := joinWithSpace st.textLines }],
            textLines := [],
            expectingSequence := true }
  else if st.expectingSequence then .ok { st with expectingSequence := false }
  else
    match findTimingMatch ',' line with
    | some (m1, m2) =>
      match parseSRTTime m1 with
      | .error e => .error (.startTime e)
      | .ok s =>
        match parseSRTTime m2 with
        | .error e => .error (.endTime e)
        | .ok en =>
          .ok { st with currentEntry := { st.currentEntry with StartTime := s, EndTime := en } }
    | none => .ok { st with textLines := st.textLines ++ [line] }

/-- The `for scanner.Scan()` loop: run `step` over the lines, aborting on
the first error. -/
def runLines {σ : Type} (step : σ → List Char → Except ParseError σ) :
    σ → List (List Char) → Except ParseError σ
  | st, [] => .ok st
  | st, l :: ls =>
    match step st l with
    | .error e => .error e
    | .ok st' => runLines step st' ls

/-- The trailing-block flush after the scan loop ("handle last caption if
file doesn't end with empty line"), shared verbatim by both parsers. -/
def flushTrailing (captions : List CaptionEntry) (currentEntry : CaptionEntry)
    (textLines : List (List Char)) : List CaptionEntry :=
  if textLines = [] then captions
  else captions ++ [{ currentEntry with Text := joinWithSpace textLines }]

/-- Model of `parse.ParseSRT`, over the sequence of input lines. -/
def ParseSRT (lines : List (List Char)) : Except ParseError (List CaptionEntry) :=
  match runLines stepSRT initSRTState lines with
  | .error e => .error e
  | .ok st => .ok (flushTrailing st.captions st.currentEntry st.textLines)

/-- Loop state of `ParseWebVTT`: like `SRTState` but with the `inHeader`
flag instead of `expectingSequence`. -/
structure VTTState where
  captions : List CaptionEntry
  currentEntry : CaptionEntry
  textLines : List (List Char)
  inHeader : Bool
deriving DecidableEq

def initVTTState : VTTState :=
  ⟨[], ⟨0, 0, []⟩, [], true⟩

/-- One iteration of the `scanner.Scan()` loop of `ParseWebVTT`.  While
in the header, blank lines and lines starting with `WEBVTT` or `NOTE`
are skipped; the first other line leaves the header phase and is
processed normally. -/
def stepVTT (st : VTTState) (rawLine : List Char) : Except ParseError VTTState :=
  let line := trimSpace rawLine
  if st.inHeader ∧ (line = []
      ∨ List.isPrefixOf ['W', 'E', 'B', 'V', 'T', 'T'] line
      ∨ List.isPrefixOf ['N', 'O', 'T', 'E'] line) then
    .ok st
  else
    let st := { st with inHeader := false }
    if line = [] then
      if st.textLines = [] then .ok st
      else
        .ok { st with
              currentEntry := { st.currentEntry with Text := joinWithSpace st.textLines },
              captions := st.captions
                ++ [{ st.currentEntry with Text := joinWithSpace st.textLines }],
              textLines := [] }
    else
      match findTimingMatch '.' line with
      | some (m1, m2) =>
        match parseWebVTTTime m1 with
        | .error e => .error (.startTime e)
        | .ok s =>
          match parseWebVTTTime m2 with
          | .error e => .error (.endTime e)
          | .ok en =>
            .ok { st with currentEntry := { st.currentEntry with StartTime := s, EndTime := en } }
      | none => .ok { st with textLines := st.textLines ++ [line] }

/-- Model of `parse.ParseWebVTT`, over the sequence of input lines. -/
def ParseWebVTT (lines : List (List Char)) : Except ParseError (List CaptionEntry) :=
  match runLines stepVTT initVTTState lines with
  | .error e => .error e
  | .ok st => .ok (flushTrailing st.captions st.currentEntry st.textLines)

/-! ## Lemmas about the coverage evaluator -/

theorem maxDuration_eq (a b : Int) : maxDuration a b = max a b := by
  unfold maxDuration
  rcases le_or_lt a b with h | h
  · rw [if_neg (not_lt.mpr h), max_eq_right h]
  · rw [if_pos h, max_eq_left h.le]

theorem minDuration_eq (a b : Int) : minDuration a b = min a b := by
  unfold minDuration
  rcases le_or_lt b a with h | h
  · rw [if_neg (not_lt.mpr h), min_eq_right h]
  · rw [if_pos h, min_eq_left h.le]

theorem wrap64_eq_self {x : Int} (h1 : int64Min ≤ x) (h2 : x ≤ int64Max) :
    wrap64 x = x := by
  unfold wrap64 int64Min int64Max at *
  omega

theorem terms_sum_nonneg (captions : List CaptionEntry) (tStart tEnd : Int) :
    0 ≤ (captions.map
        fun e => max 0 (min e.EndTime tEnd - max e.StartTime tStart)).sum := by
  apply List.sum_nonneg
  intro x hx
  obtain ⟨e, _, rfl⟩ := List.mem_map.mp hx
  exact le_max_left 0 _

theorem coveredDuration_foldl_acc (tStart tEnd : Int) :
    ∀ (captions : List CaptionEntry) (acc : Int), 0 ≤ acc →
      acc + (captions.map
          fun e => max 0 (min e.EndTime tEnd - max e.StartTime tStart)).sum
        ≤ int64Max →
      captions.foldl
        (fun acc caption =>
          let overlapStart := maxDuration caption.StartTime tStart
          let overlapEnd := minDuration caption.EndTime tEnd
          if overlapStart < overlapEnd then wrap64 (acc + wrap64 (overlapEnd - overlapStart))
          else acc)
        acc
      = acc + (captions.map
          fun e => max 0 (min e.EndTime tEnd - max e.StartTime tStart)).sum := by
  intro captions
  induction captions with
  | nil => intro acc h0 hb; simp
  | cons e es ih =>
    intro acc h0 hb
    simp only [List.foldl_cons, List.map_cons, List.sum_cons] at hb ⊢
    have hsum_es := terms_sum_nonneg es tStart tEnd
    rw [maxDuration_eq, minDuration_eq]
    rcases lt_or_ge (max e.StartTime tStart) (min e.EndTime tEnd) with hlt | hge
    · rw [if_pos hlt]
      have hw1 : wrap64 (min e.EndTime tEnd - max e.StartTime tStart)
          = min e.EndTime tEnd - max e.StartTime tStart := by
        apply wrap64_eq_self
        · simp only [int64Min]; omega
        · omega
      have hw2 : wrap64 (acc + (min e.EndTime tEnd - max e.StartTime tStart))
          = acc + (min e.EndTime tEnd - max e.StartTime tStart) := by
        apply wrap64_eq_self
        · simp only [int64Min]; omega
        · omega
      rw [hw1, hw2,
        ih (acc + (min e.EndTime tEnd - max e.StartTime tStart)) (by omega) (by omega)]
      omega
    · rw [if_neg (not_lt.mpr hge), ih acc h0 (by omega)]
      omega

/-- Whenever the naive per-entry overlap sum stays within `int64`, the
accumulator of `ValidateCoverage` equals that sum (no wrap fires). -/
theorem coveredDuration_eq_sum (captions : List CaptionEntry) (tStart tEnd : Int)
    (hbound : (captions.map
        fun e => max 0 (min e.EndTime tEnd - max e.StartTime tStart)).sum
      ≤ int64Max) :
    coveredDuration captions tStart tEnd
      = (captions.map
          fun e => max 0 (min e.EndTime tEnd - max e.StartTime tStart)).sum := by
  unfold coveredDuration
  rw [coveredDuration_foldl_acc tStart tEnd captions 0 le_rfl (by omega)]
  omega

/-! ## Claims C1, C3, C7, C8 -/

/-- C1 counterexample to the claim as stated: two entries each
overlapping the window `[0, 2^63 - 2)` by `2^62` ns have naive overlap
sum `2^63`, which overflows the `int64` accumulator of the Go code; the
computed covered duration wraps to `-2^63` and the claimed universal
exact-sum equality fails at these representable inputs. -/
theorem c1_counterexample :
    (0 : Int) < 9223372036854775806 - 0
    ∧ coveredDuration
        [⟨0, 4611686018427387904, []⟩, ⟨0, 4611686018427387904, []⟩]
        0 9223372036854775806
        = -9223372036854775808
    ∧ (([⟨0, 4611686018427387904, []⟩, ⟨0, 4611686018427387904, []⟩]
          : List CaptionEntry).map
        fun e => max 0 (min e.EndTime 9223372036854775806 - max e.StartTime 0)).sum
        = 9223372036854775808
    ∧ coveredDuration
        [⟨0, 4611686018427387904, []⟩, ⟨0, 4611686018427387904, []⟩]
        0 9223372036854775806
        ≠ (([⟨0, 4611686018427387904, []⟩, ⟨0, 4611686018427387904, []⟩]
            : List CaptionEntry).map
          fun e => max 0 (min e.EndTime 9223372036854775806 - max e.StartTime 0)).sum :=
  ⟨by decide, by decide, by decide, by decide⟩

/-- C1 amended: for every sequence of caption entries and every window
with positive length whose naive per-entry overlap sum does not exceed
the `int64` maximum (so the accumulator never wraps), the covered
duration computed by `ValidateCoverage` equals the plain sum over all
entries of `max 0 (min entry.end window.end - max entry.start
window.start)` — no union-merging of overlapping entries; in particular
the two entries `[0s,2s)` and `[1s,3s)` against the window `[0s,3s)`
yield a covered duration of `4s`, not `3s` (durations in
nanoseconds). -/
theorem c1_coverage_is_naive_sum :
    (∀ (captions : List CaptionEntry) (tStart tEnd : Int), 0 < tEnd - tStart →
      (captions.map
          fun e => max 0 (min e.EndTime tEnd - max e.StartTime tStart)).sum
        ≤ int64Max →
      coveredDuration captions tStart tEnd
        = (captions.map
            fun e => max 0 (min e.EndTime tEnd - max e.StartTime tStart)).sum)
    ∧ coveredDuration
        [⟨0, 2000000000, []⟩, ⟨1000000000, 3000000000, []⟩] 0 3000000000
        = 4000000000
    ∧ coveredDuration
        [⟨0, 2000000000, []⟩, ⟨1000000000, 3000000000, []⟩] 0 3000000000
        ≠ 3000000000 :=
  ⟨fun captions tStart tEnd _ hb => coveredDuration_eq_sum captions tStart tEnd hb,
   by decide, by decide⟩

theorem c1_witness :
    ((0 : Int) < 3000000000 - 0
      ∧ (([⟨0, 2000000000, []⟩] : List CaptionEntry).map
          fun e => max 0 (min e.EndTime 3000000000 - max e.StartTime 0)).sum
        ≤ int64Max)
    ∧ coveredDuration ([⟨0, 2000000000, []⟩] : List CaptionEntry) 0 3000000000
        = (([⟨0, 2000000000, []⟩] : List CaptionEntry).map
            fun e => max 0 (min e.EndTime 3000000000 - max e.StartTime 0)).sum :=
  ⟨⟨by decide, by decide⟩,
   c1_coverage_is_naive_sum.1 [⟨0, 2000000000, []⟩] 0 3000000000 (by decide) (by decide)⟩

/-- C3 counterexample to the claim as stated: the window
`[0, 2^63 - 2)` is covered for `2^62` ns by one entry; appending a
second entry that overlaps the window (intersection `[0, 2^62)`) wraps
the `int64` accumulator from `2^62 + 2^62` down to `-2^63`, so the
computed covered duration strictly decreases — it neither increases nor
stays unchanged. -/
theorem c3_counterexample :
    max (0 : Int) 0 < min (4611686018427387904 : Int) 9223372036854775806
    ∧ coveredDuration
        ([⟨0, 4611686018427387904, []⟩] ++ [⟨0, 4611686018427387904, []⟩])
        0 9223372036854775806
      < coveredDuration [⟨0, 4611686018427387904, []⟩] 0 9223372036854775806 :=
  ⟨by decide, by decide⟩

/-- C3 amended: appending a caption entry whose interval has a non-empty
intersection with the window strictly increases the computed covered
duration, provided the naive overlap sum including the new entry stays
within `int64` (no accumulator wrap).  The strict increase entails the
claimed "strictly increases, or leaves it unchanged if the window is
already fully covered": because the accumulator is a naive sum, the
strict increase happens even on a fully covered window. -/
theorem c3_overlapping_entry_increases_coverage
    (captions : List CaptionEntry) (e : CaptionEntry) (tStart tEnd : Int)
    (hov : max e.StartTime tStart < min e.EndTime tEnd)
    (hbound : ((captions ++ [e]).map
        fun x => max 0 (min x.EndTime tEnd - max x.StartTime tStart)).sum
      ≤ int64Max) :
    coveredDuration captions tStart tEnd
      < coveredDuration (captions ++ [e]) tStart tEnd := by
  rw [List.map_append, List.sum_append] at hbound
  simp only [List.map_cons, List.map_nil, List.sum_cons, List.sum_nil] at hbound
  have htermnn : 0 ≤ max 0 (min e.EndTime tEnd - max e.StartTime tStart) :=
    le_max_left 0 _
  rw [coveredDuration_eq_sum captions tStart tEnd (by omega),
    coveredDuration_eq_sum (captions ++ [e]) tStart tEnd
      (by rw [List.map_append, List.sum_append]
          simp only [List.map_cons, List.map_nil, List.sum_cons, List.sum_nil]
          omega),
    List.map_append, List.sum_append]
  simp only [List.map_cons, List.map_nil, List.sum_cons, List.sum_nil]
  have hpos : 0 < max 0 (min e.EndTime tEnd - max e.StartTime tStart) := by
    rw [max_eq_right (sub_nonneg.mpr hov.le)]
    exact sub_pos.mpr hov
  omega

theorem c3_witness :
    (max (0 : Int) 0 < min 1000000000 10000000000
      ∧ (([] ++ [⟨0, 1000000000, []⟩] : List CaptionEntry).map
          fun x => max 0 (min x.EndTime 10000000000 - max x.StartTime 0)).sum
        ≤ int64Max)
    ∧ coveredDuration [] 0 10000000000
        < coveredDuration ([] ++ [⟨0, 1000000000, []⟩]) 0 10000000000 :=
  ⟨⟨by decide, by decide⟩,
   c3_overlapping_entry_increases_coverage [] ⟨0, 1000000000, []⟩ 0 10000000000
     (by decide) (by decide)⟩

/-- C7: An entry with `start >= end` contributes exactly zero to the
covered-duration accumulator, wherever it sits in the sequence, for every
window and required fraction: removing it changes neither the covered
duration nor the verdict of `ValidateCoverage`.  (The overlap guard uses
only `max`/`min` and a comparison, which never wrap, so the entry is
skipped and both runs perform identical accumulator steps — wraps
included.) -/
theorem c7_inverted_entry_contributes_zero
    (l1 l2 : List CaptionEntry) (e : CaptionEntry) (tStart tEnd : Int) (req : ℚ)
    (h : e.EndTime ≤ e.StartTime) :
    coveredDuration (l1 ++ e :: l2) tStart tEnd
      = coveredDuration (l1 ++ l2) tStart tEnd
    ∧ ValidateCoverage (l1 ++ e :: l2) tStart tEnd req
      = ValidateCoverage (l1 ++ l2) tStart tEnd req := by
  have hskip : ∀ acc : Int,
      (if maxDuration e.StartTime tStart < minDuration e.EndTime tEnd then
          wrap64 (acc + wrap64 (minDuration e.EndTime tEnd - maxDuration e.StartTime tStart))
        else acc)
      = acc := by
    intro acc
    rw [maxDuration_eq, minDuration_eq, if_neg]
    have h1 : min e.EndTime tEnd ≤ e.EndTime := min_le_left _ _
    have h2 : e.StartTime ≤ max e.StartTime tStart := le_max_left _ _
    omega
  have hcov : coveredDuration (l1 ++ e :: l2) tStart tEnd
      = coveredDuration (l1 ++ l2) tStart tEnd := by
    unfold coveredDuration
    rw [List.foldl_append, List.foldl_append, List.foldl_cons]
    congr 1
    exact hskip _
  refine ⟨hcov, ?_⟩
  show (if wrap64 (tEnd - tStart) ≤ 0 then false
        else decide (((coveredDuration (l1 ++ e :: l2) tStart tEnd : ℚ)
            / ((wrap64 (tEnd - tStart) : Int) : ℚ)) ≥ req))
      = (if wrap64 (tEnd - tStart) ≤ 0 then false
        else decide (((coveredDuration (l1 ++ l2) tStart tEnd : ℚ)
            / ((wrap64 (tEnd - tStart) : Int) : ℚ)) ≥ req))
  rw [hcov]

theorem c7_witness :
    (5 : Int) ≤ 7
    ∧ (coveredDuration ([] ++ (⟨7, 5, []⟩ : CaptionEntry) :: []) 0 10
        = coveredDuration ([] ++ []) 0 10
      ∧ ValidateCoverage ([] ++ (⟨7, 5, []⟩ : CaptionEntry) :: []) 0 10 1
        = ValidateCoverage ([] ++ []) 0 10 1) :=
  ⟨by decide, c7_inverted_entry_contributes_zero [] [] ⟨7, 5, []⟩ 0 10 1 (by decide)⟩

/-- C8 counterexample to the claim as stated: the inverted window
`tStart = 2^63 - 1`, `tEnd = -2` has `tEnd - tStart = -(2^63 + 1)`,
which wraps in `int64` to the positive value `2^63 - 1`; the Go code
skips the degenerate-window early return and, with required fraction
`0`, returns `true` — an inverted window that passes. -/
theorem c8_counterexample :
    ((-2 : Int) - 9223372036854775807) ≤ 0
    ∧ ValidateCoverage [] 9223372036854775807 (-2) 0 = true := by
  refine ⟨by decide, ?_⟩
  show (if wrap64 ((-2) - 9223372036854775807) ≤ 0 then false
        else decide (((coveredDuration [] 9223372036854775807 (-2) : ℚ)
            / ((wrap64 ((-2) - 9223372036854775807) : Int) : ℚ)) ≥ 0))
      = true
  rw [if_neg (by decide)]
  have h0 : coveredDuration [] 9223372036854775807 (-2) = 0 := rfl
  rw [h0]
  norm_num

/-- C8 amended: `ValidateCoverage` returns `false` for every sequence of
entries and every required fraction whenever the wrapped `int64`
difference `totalRange = wrap64 (window.end - window.start)` is `<= 0`;
in particular for every window with `end - start <= 0` whose exact
difference does not underflow `int64`, and for every degenerate window
with `start = end`. -/
theorem c8_degenerate_window_fails :
    (∀ (captions : List CaptionEntry) (tStart tEnd : Int) (req : ℚ),
      wrap64 (tEnd - tStart) ≤ 0 → ValidateCoverage captions tStart tEnd req = false)
    ∧ (∀ (captions : List CaptionEntry) (tStart tEnd : Int) (req : ℚ),
      int64Min ≤ tEnd - tStart → tEnd - tStart ≤ 0 →
      ValidateCoverage captions tStart tEnd req = false)
    ∧ (∀ (captions : List CaptionEntry) (t : Int) (req : ℚ),
      ValidateCoverage captions t t req = false) := by
  have hmain : ∀ (captions : List CaptionEntry) (tStart tEnd : Int) (req : ℚ),
      wrap64 (tEnd - tStart) ≤ 0 → ValidateCoverage captions tStart tEnd req = false := by
    intro captions tStart tEnd req h
    show (if wrap64 (tEnd - tStart) ≤ 0 then false
          else decide (((coveredDuration captions tStart tEnd : ℚ)
              / ((wrap64 (tEnd - tStart) : Int) : ℚ)) ≥ req))
        = false
    rw [if_pos h]
  refine ⟨hmain, ?_, ?_⟩
  · intro captions tStart tEnd req h1 h2
    apply hmain
    rw [wrap64_eq_self h1 (by simp only [int64Max]; omega)]
    exact h2
  · intro captions t req
    apply hmain
    rw [sub_self]
    decide

theorem c8_witness :
    (int64Min ≤ (3 : Int) - 7 ∧ (3 : Int) - 7 ≤ 0)
    ∧ ValidateCoverage [⟨0, 1000000000, []⟩] 7 3 (1 / 2) = false :=
  ⟨⟨by decide, by decide⟩,
   c8_degenerate_window_fails.2.1 [⟨0, 1000000000, []⟩] 7 3 (1 / 2)
     (by decide) (by decide)⟩

/-! ## Lemmas about trimming and joining -/

theorem dropWhile_head_false (p : Char → Bool) :
    ∀ (l : List Char) (a : Char) (as : List Char),
      l.dropWhile p = a :: as → p a = false := by
  intro l
  induction l with
  | nil => intro a as h; simp [List.dropWhile] at h
  | cons c cs ih =>
    intro a as h
    by_cases hc : p c
    · rw [List.dropWhile_cons_of_pos hc] at h
      exact ih a as h
    · rw [List.dropWhile_cons_of_neg hc] at h
      cases h
      exact Bool.not_eq_true _ |>.mp hc

theorem mem_of_mem_trimSpace {c : Char} {l : List Char}
    (h : c ∈ trimSpace l) : c ∈ l := by
  unfold trimSpace at h
  rw [List.mem_reverse] at h
  have h2 := (List.dropWhile_sublist isSpaceChar).subset h
  rw [List.mem_reverse] at h2
  exact (List.dropWhile_sublist isSpaceChar).subset h2

theorem trim_ne_nil_exists {l : List Char} (h : trimSpace l ≠ []) :
    ∃ c ∈ trimSpace l, isSpaceChar c = false := by
  unfold trimSpace at *
  cases hd : (l.dropWhile isSpaceChar).reverse.dropWhile isSpaceChar with
  | nil => rw [hd] at h; cases h rfl
  | cons a as =>
    refine ⟨a, ?_, dropWhile_head_false isSpaceChar _ a as hd⟩
    rw [List.mem_reverse]
    exact List.mem_cons_self a as

theorem all_space_of_trim_eq_nil {l : List Char} (h : trimSpace l = []) :
    ∀ c ∈ l, isSpaceChar c = true := by
  intro c hc
  unfold trimSpace at h
  rw [List.reverse_eq_nil_iff] at h
  have h3 := List.dropWhile_eq_nil_iff.mp h
  have h4 : ∀ x ∈ l.dropWhile isSpaceChar, isSpaceChar x = true := by
    intro x hx
    exact h3 x (List.mem_reverse.mpr hx)
  rw [← List.takeWhile_append_dropWhile isSpaceChar l] at hc
  rcases List.mem_append.mp hc with h5 | h5
  · exact List.mem_takeWhile_imp h5
  · exact h4 c h5

theorem trim_ne_nil_iff (l : List Char) :
    trimSpace l ≠ [] ↔ ∃ c ∈ l, isSpaceChar c = false := by
  constructor
  · intro h
    obtain ⟨c, hc, hcf⟩ := trim_ne_nil_exists h
    exact ⟨c, mem_of_mem_trimSpace hc, hcf⟩
  · rintro ⟨c, hc, hcf⟩ h
    rw [all_space_of_trim_eq_nil h c hc] at hcf
    cases hcf

theorem trim_join_ne_nil (parts : List (List Char)) (hne : parts ≠ [])
    (hall : ∀ x ∈ parts, trimSpace x ≠ []) :
    trimSpace (joinWithSpace parts) ≠ [] := by
  cases parts with
  | nil => cases hne rfl
  | cons x xs =>
    have hx := hall x (List.mem_cons_self x xs)
    obtain ⟨c, hc, hcf⟩ := trim_ne_nil_exists hx
    have hcx : c ∈ x := mem_of_mem_trimSpace hc
    apply (trim_ne_nil_iff _).mpr
    refine ⟨c, ?_, hcf⟩
    cases xs with
    | nil => simpa [joinWithSpace] using hcx
    | cons y ys =>
      show c ∈ x ++ ' ' :: joinWithSpace (y :: ys)
      exact List.mem_append.mpr (Or.inl hcx)

/-! ## Claim C9 -/

/-- C9: the aggregator `ExtractAllText` drops exactly the entries whose text trims
to empty, joins the surviving entries' untrimmed texts with single
spaces in input order, and returns the empty string on empty or
all-blank input; the spec's example `["", "  ", "Hello", "World"]`
aggregates to `"Hello World"`. -/
theorem c9_text_aggregator :
    ExtractAllText
        [⟨0, 0, []⟩, ⟨0, 0, [' ', ' ']⟩, ⟨0, 0, "Hello".data⟩, ⟨0, 0, "World".data⟩]
      = "Hello World".data
    ∧ ExtractAllText [] = []
    ∧ (∀ captions : List CaptionEntry,
        (∀ e ∈ captions, trimSpace e.Text = []) → ExtractAllText captions = [])
    ∧ (∀ captions : List CaptionEntry,
        (∀ e ∈ captions, trimSpace e.Text ≠ []) →
          ExtractAllText captions = joinWithSpace (captions.map CaptionEntry.Text)) := by
  refine ⟨by decide, rfl, ?_, ?_⟩
  · intro captions h
    unfold ExtractAllText
    rw [List.filter_eq_nil_iff.mpr]
    · rfl
    · intro e he
      simp [h e he]
  · intro captions h
    unfold ExtractAllText
    rw [List.filter_eq_self.mpr]
    intro e he
    simpa using h e he

theorem c9_witness :
    (∀ e ∈ ([⟨0, 0, ['H', 'i']⟩] : List CaptionEntry), trimSpace e.Text ≠ [])
    ∧ ExtractAllText [⟨0, 0, ['H', 'i']⟩]
        = joinWithSpace (([⟨0, 0, ['H', 'i']⟩] : List CaptionEntry).map CaptionEntry.Text) :=
  ⟨by decide, c9_text_aggregator.2.2.2 [⟨0, 0, ['H', 'i']⟩] (by decide)⟩

/-! ## Claim C2 -/

/-- C2: For every timestamp of the form `HH:MM:SS,mmm` (SRT) resp.
`HH:MM:SS.mmm` (VTT) with `HH`, `MM`, `SS` exactly two and `mmm` exactly
three ASCII digits, the codec succeeds and returns the duration
`(HH*3600000 + MM*60000 + SS*1000 + mmm)` milliseconds (times `10^6`
nanoseconds), for all digit combinations. -/
theorem c2_timestamp_roundtrip :
    (∀ h1 h2 m1 m2 s1 s2 d1 d2 d3 : Char,
      h1.isDigit = true → h2.isDigit = true → m1.isDigit = true →
      m2.isDigit = true → s1.isDigit = true → s2.isDigit = true →
      d1.isDigit = true → d2.isDigit = true → d3.isDigit = true →
      parseSRTTime [h1, h2, ':', m1, m2, ':', s1, s2, ',', d1, d2, d3]
        = .ok (((10 * dv h1 + dv h2) * 3600000 + (10 * dv m1 + dv m2) * 60000
                + (10 * dv s1 + dv s2) * 1000
                + (100 * dv d1 + 10 * dv d2 + dv d3)) * 1000000))
    ∧ (∀ h1 h2 m1 m2 s1 s2 d1 d2 d3 : Char,
      h1.isDigit = true → h2.isDigit = true → m1.isDigit = true →
      m2.isDigit = true → s1.isDigit = true → s2.isDigit = true →
      d1.isDigit = true → d2.isDigit = true → d3.isDigit = true →
      parseWebVTTTime [h1, h2, ':', m1, m2, ':', s1, s2, '.', d1, d2, d3]
        = .ok (((10 * dv h1 + dv h2) * 3600000 + (10 * dv m1 + dv m2) * 60000
                + (10 * dv s1 + dv s2) * 1000
                + (100 * dv d1 + 10 * dv d2 + dv d3)) * 1000000)) :=
  ⟨fun _ _ _ _ _ _ _ _ _ a1 a2 a3 a4 a5 a6 a7 a8 a9 =>
      parseSRTTime_digits a1 a2 a3 a4 a5 a6 a7 a8 a9,
   fun _ _ _ _ _ _ _ _ _ a1 a2 a3 a4 a5 a6 a7 a8 a9 =>
      parseWebVTTTime_digits a1 a2 a3 a4 a5 a6 a7 a8 a9⟩

theorem c2_witness :
    ('1' : Char).isDigit = true
    ∧ parseSRTTime ['1', '2', ':', '3', '4', ':', '5', '6', ',', '7', '8', '9']
        = .ok 45296789000000
    ∧ parseWebVTTTime ['1', '2', ':', '3', '4', ':', '5', '6', '.', '7', '8', '9']
        = .ok 45296789000000 := by
  have hs := c2_timestamp_roundtrip.1 '1' '2' '3' '4' '5' '6' '7' '8' '9'
    (by decide) (by decide) (by decide) (by decide) (by decide) (by decide)
    (by decide) (by decide) (by decide)
  have hv := c2_timestamp_roundtrip.2 '1' '2' '3' '4' '5' '6' '7' '8' '9'
    (by decide) (by decide) (by decide) (by decide) (by decide) (by decide)
    (by decide) (by decide) (by decide)
  refine ⟨by decide, ?_, ?_⟩
  · rw [hs]; decide
  · rw [hv]; decide

/-! ## Claim C6 (corrected) -/

/-- C6 counterexample to the claim as stated: the input `"xx:yy:zz"`
has exactly 3 colon-separated components and its seconds component has 1
(not 2) sub-second parts, so by the claimed check ordering the codec
would have to fail with the `invalid seconds format` kind; the code
instead fails with the numeric-conversion error from `Atoi "xx"`,
because both `Atoi` calls on hours and minutes run before the sub-second
split is inspected. -/
theorem c6_counterexample :
    (splitOnChar ':' ['x', 'x', ':', 'y', 'y', ':', 'z', 'z']).length = 3
    ∧ (splitOnChar ',' ['z', 'z']).length ≠ 2
    ∧ parseSRTTime ['x', 'x', ':', 'y', 'y', ':', 'z', 'z']
        = .error (.numError .invalid)
    ∧ parseSRTTime ['x', 'x', ':', 'y', 'y', ':', 'z', 'z']
        ≠ .error .invalidSecondsFormat := by decide

/-- C6 amended: the codec's checks run in this order: a number of
`:`-separated components other than 3 fails with the `invalid time
format` kind; otherwise a non-numeric hours or minutes component fails
with the underlying numeric-conversion error kind; otherwise a number of
sub-second separator parts other than 2 fails with the `invalid seconds
format` kind; otherwise a non-numeric seconds or milliseconds component
fails with the numeric-conversion error kind.  The three failure kinds
are pairwise distinguishable. -/
theorem c6_amended_error_taxonomy :
    (∀ s : List Char, (splitOnChar ':' s).length ≠ 3 →
      parseSRTTime s = .error .invalidTimeFormat
      ∧ parseWebVTTTime s = .error .invalidTimeFormat)
    ∧ (∀ (s p0 p1 p2 : List Char) (e : AtoiErr), splitOnChar ':' s = [p0, p1, p2] →
      (Atoi p0 = .error e ∨ (∃ hrs, Atoi p0 = .ok hrs ∧ Atoi p1 = .error e)) →
      parseSRTTime s = .error (.numError e)
      ∧ parseWebVTTTime s = .error (.numError e))
    ∧ (∀ (s p0 p1 p2 : List Char) (hrs mins : Int),
      splitOnChar ':' s = [p0, p1, p2] →
      Atoi p0 = .ok hrs → Atoi p1 = .ok mins →
      ((splitOnChar ',' p2).length ≠ 2 →
        parseSRTTime s = .error .invalidSecondsFormat)
      ∧ ((splitOnChar '.' p2).length ≠ 2 →
        parseWebVTTTime s = .error .invalidSecondsFormat))
    ∧ (∀ (s p0 p1 p2 q0 q1 : List Char) (hrs mins : Int) (e : AtoiErr),
      splitOnChar ':' s = [p0, p1, p2] →
      Atoi p0 = .ok hrs → Atoi p1 = .ok mins →
      (Atoi q0 = .error e ∨ (∃ sec, Atoi q0 = .ok sec ∧ Atoi q1 = .error e)) →
      (splitOnChar ',' p2 = [q0, q1] → parseSRTTime s = .error (.numError e))
      ∧ (splitOnChar '.' p2 = [q0, q1] → parseWebVTTTime s = .error (.numError e)))
    ∧ (TimeError.invalidTimeFormat ≠ TimeError.invalidSecondsFormat
      ∧ ∀ e : AtoiErr, TimeError.invalidTimeFormat ≠ TimeError.numError e
        ∧ TimeError.invalidSecondsFormat ≠ TimeError.numError e) := by
  refine ⟨?_, ?_, ?_, ?_, by decide, by intro e; exact ⟨by simp, by simp⟩⟩
  · intro s hlen
    constructor
    · unfold parseSRTTime
      rcases hsp : splitOnChar ':' s with _ | ⟨p0, _ | ⟨p1, _ | ⟨p2, _ | ⟨p3, rest⟩⟩⟩⟩ <;>
        first
          | rfl
          | exact absurd (by simp [hsp]) hlen
    · unfold parseWebVTTTime
      rcases hsp : splitOnChar ':' s with _ | ⟨p0, _ | ⟨p1, _ | ⟨p2, _ | ⟨p3, rest⟩⟩⟩⟩ <;>
        first
          | rfl
          | exact absurd (by simp [hsp]) hlen
  · intro s p0 p1 p2 e hsp hor
    constructor
    · rcases hor with he | ⟨hrs, hok, he⟩
      · simp only [parseSRTTime, hsp, he]
      · simp only [parseSRTTime, hsp, hok, he]
    · rcases hor with he | ⟨hrs, hok, he⟩
      · simp only [parseWebVTTTime, hsp, he]
      · simp only [parseWebVTTTime, hsp, hok, he]
  · intro s p0 p1 p2 hrs mins hsp hok0 hok1
    constructor
    · intro hlen2
      simp only [parseSRTTime, hsp, hok0, hok1]
      rcases hq : splitOnChar ',' p2 with _ | ⟨q0, _ | ⟨q1, _ | ⟨q2, rest⟩⟩⟩ <;>
        first
          | rfl
          | exact absurd (by simp [hq]) hlen2
    · intro hlen2
      simp only [parseWebVTTTime, hsp, hok0, hok1]
      rcases hq : splitOnChar '.' p2 with _ | ⟨q0, _ | ⟨q1, _ | ⟨q2, rest⟩⟩⟩ <;>
        first
          | rfl
          | exact absurd (by simp [hq]) hlen2
  · intro s p0 p1 p2 q0 q1 hrs mins e hsp hok0 hok1 hor
    constructor
    · intro hq
      rcases hor with he | ⟨sec, hsec, he⟩
      · simp only [parseSRTTime, hsp, hok0, hok1, hq, he]
      · simp only [parseSRTTime, hsp, hok0, hok1, hq, hsec, he]
    · intro hq
      rcases hor with he | ⟨sec, hsec, he⟩
      · simp only [parseWebVTTTime, hsp, hok0, hok1, hq, he]
      · simp only [parseWebVTTTime, hsp, hok0, hok1, hq, hsec, he]

theorem c6_amended_witness :
    (splitOnChar ':' ['1', '2', ':', '3', '4']).length ≠ 3
    ∧ parseSRTTime ['1', '2', ':', '3', '4'] = .error .invalidTimeFormat :=
  ⟨by decide, (c6_amended_error_taxonomy.1 ['1', '2', ':', '3', '4'] (by decide)).1⟩

/-! ## Lemmas about the timing matcher -/

theorem capShapeB_parse_srt {c : List Char} (h : capShapeB ',' c = true) :
    ∃ v, parseSRTTime c = .ok v := by
  unfold capShapeB at h
  split at h
  · simp only [Bool.and_eq_true, decide_eq_true_eq] at h
    obtain ⟨⟨⟨⟨⟨⟨⟨⟨⟨⟨⟨q1, q2⟩, qb1⟩, q3⟩, q4⟩, qb2⟩, q5⟩, q6⟩, qp⟩, q7⟩, q8⟩, q9⟩ := h
    subst qb1
    subst qb2
    subst qp
    exact ⟨_, parseSRTTime_digits q1 q2 q3 q4 q5 q6 q7 q8 q9⟩
  · cases h

theorem capShapeB_parse_vtt {c : List Char} (h : capShapeB '.' c = true) :
    ∃ v, parseWebVTTTime c = .ok v := by
  unfold capShapeB at h
  split at h
  · simp only [Bool.and_eq_true, decide_eq_true_eq] at h
    obtain ⟨⟨⟨⟨⟨⟨⟨⟨⟨⟨⟨q1, q2⟩, qb1⟩, q3⟩, q4⟩, qb2⟩, q5⟩, q6⟩, qp⟩, q7⟩, q8⟩, q9⟩ := h
    subst qb1
    subst qb2
    subst qp
    exact ⟨_, parseWebVTTTime_digits q1 q2 q3 q4 q5 q6 q7 q8 q9⟩
  · cases h

theorem matchCap_shape {sep : Char} {l c r : List Char}
    (h : matchCap sep l = some (c, r)) : capShapeB sep c = true := by
  unfold matchCap at h
  split at h
  · cases h
    assumption
  · cases h

theorem matchTimingAt_shape {sep : Char} {l c1 c2 : List Char}
    (h : matchTimingAt sep l = some (c1, c2)) :
    capShapeB sep c1 = true ∧ capShapeB sep c2 = true := by
  unfold matchTimingAt at h
  cases hm1 : matchCap sep l with
  | none => rw [hm1] at h; cases h
  | some pr1 =>
    obtain ⟨cA, r1⟩ := pr1
    rw [hm1] at h
    simp only at h
    cases hs1 : skipSpaces1 r1 with
    | none => rw [hs1] at h; cases h
    | some r2 =>
      rw [hs1] at h
      simp only at h
      cases ha : matchArrow r2 with
      | none => rw [ha] at h; cases h
      | some r3 =>
        rw [ha] at h
        simp only at h
        cases hs2 : skipSpaces1 r3 with
        | none => rw [hs2] at h; cases h
        | some r4 =>
          rw [hs2] at h
          simp only at h
          cases hm2 : matchCap sep r4 with
          | none => rw [hm2] at h; cases h
          | some pr2 =>
            obtain ⟨cB, rest⟩ := pr2
            rw [hm2] at h
            simp only at h
            cases h
            exact ⟨matchCap_shape hm1, matchCap_shape hm2⟩

theorem findTimingMatch_shape {sep : Char} {l c1 c2 : List Char}
    (h : findTimingMatch sep l = some (c1, c2)) :
    capShapeB sep c1 = true ∧ capShapeB sep c2 = true := by
  induction l with
  | nil => simp [findTimingMatch] at h
  | cons c rest ih =>
    unfold findTimingMatch at h
    cases hm : matchTimingAt sep (c :: rest) with
    | some pr =>
      obtain ⟨cA, cB⟩ := pr
      rw [hm] at h
      simp only at h
      cases h
      exact matchTimingAt_shape hm
    | none =>
      rw [hm] at h
      simp only at h
      exact ih h

/-! ## The scanners never fail -/

theorem stepSRT_ok (st : SRTState) (raw : List Char) :
    ∃ st', stepSRT st raw = .ok st' := by
  simp only [stepSRT]
  by_cases h1 : trimSpace raw = []
  · rw [if_pos h1]
    by_cases h2 : st.textLines = []
    · rw [if_pos h2]; exact ⟨_, rfl⟩
    · rw [if_neg h2]; exact ⟨_, rfl⟩
  · rw [if_neg h1]
    by_cases h2 : st.expectingSequence = true
    · rw [if_pos h2]; exact ⟨_, rfl⟩
    · rw [if_neg h2]
      cases hm : findTimingMatch ',' (trimSpace raw) with
      | none => simp only [hm]; exact ⟨_, rfl⟩
      | some pr =>
        obtain ⟨m1, m2⟩ := pr
        obtain ⟨hshape1, hshape2⟩ := findTimingMatch_shape hm
        obtain ⟨v1, hv1⟩ := capShapeB_parse_srt hshape1
        obtain ⟨v2, hv2⟩ := capShapeB_parse_srt hshape2
        simp only [hm, hv1, hv2]
        exact ⟨_, rfl⟩

theorem stepVTT_ok (st : VTTState) (raw : List Char) :
    ∃ st', stepVTT st raw = .ok st' := by
  simp only [stepVTT]
  by_cases h0 : st.inHeader = true ∧ (trimSpace raw = []
      ∨ List.isPrefixOf ['W', 'E', 'B', 'V', 'T', 'T'] (trimSpace raw)
      ∨ List.isPrefixOf ['N', 'O', 'T', 'E'] (trimSpace raw))
  · rw [if_pos h0]; exact ⟨_, rfl⟩
  · rw [if_neg h0]
    by_cases h1 : trimSpace raw = []
    · rw [if_pos h1]
      by_cases h2 : st.textLines = []
      · rw [if_pos h2]; exact ⟨_, rfl⟩
      · rw [if_neg h2]; exact ⟨_, rfl⟩
    · rw [if_neg h1]
      cases hm : findTimingMatch '.' (trimSpace raw) with
      | none => simp only [hm]; exact ⟨_, rfl⟩
      | some pr =>
        obtain ⟨m1, m2⟩ := pr
        obtain ⟨hshape1, hshape2⟩ := findTimingMatch_shape hm
        obtain ⟨v1, hv1⟩ := capShapeB_parse_vtt hshape1
        obtain ⟨v2, hv2⟩ := capShapeB_parse_vtt hshape2
        simp only [hm, hv1, hv2]
        exact ⟨_, rfl⟩

theorem runLines_ok {σ : Type} (step : σ → List Char → Except ParseError σ)
    (hstep : ∀ st l, ∃ st', step st l = .ok st') :
    ∀ (lines : List (List Char)) (st : σ), ∃ st', runLines step st lines = .ok st' := by
  intro lines
  induction lines with
  | nil => intro st; exact ⟨st, rfl⟩
  | cons l ls ih =>
    intro st
    obtain ⟨st1, hst1⟩ := hstep st l
    obtain ⟨st2, hst2⟩ := ih st1
    refine ⟨st2, ?_⟩
    unfold runLines
    rw [hst1]
    exact hst2

/-! ## Claim C5 -/

/-- C5: The timing-error branches of the scanners are unreachable:
every capture produced by the timing regular expression satisfies the
codec grammar, so `parseSRTTime`/`parseWebVTTTime` never fail on a
regex-matched capture and `ParseSRT`/`ParseWebVTT` never return an
error. -/
theorem c5_timing_errors_unreachable :
    (∀ line cap1 cap2 : List Char,
      findTimingMatch ',' line = some (cap1, cap2) →
      (∃ v, parseSRTTime cap1 = .ok v) ∧ (∃ v, parseSRTTime cap2 = .ok v))
    ∧ (∀ line cap1 cap2 : List Char,
      findTimingMatch '.' line = some (cap1, cap2) →
      (∃ v, parseWebVTTTime cap1 = .ok v) ∧ (∃ v, parseWebVTTTime cap2 = .ok v))
    ∧ (∀ lines : List (List Char), ∃ cs, ParseSRT lines = .ok cs)
    ∧ (∀ lines : List (List Char), ∃ cs, ParseWebVTT lines = .ok cs) := by
  refine ⟨?_, ?_, ?_, ?_⟩
  · intro line cap1 cap2 h
    obtain ⟨hs1, hs2⟩ := findTimingMatch_shape h
    exact ⟨capShapeB_parse_srt hs1, capShapeB_parse_srt hs2⟩
  · intro line cap1 cap2 h
    obtain ⟨hs1, hs2⟩ := findTimingMatch_shape h
    exact ⟨capShapeB_parse_vtt hs1, capShapeB_parse_vtt hs2⟩
  · intro lines
    obtain ⟨st, hst⟩ := runLines_ok stepSRT stepSRT_ok lines initSRTState
    refine ⟨flushTrailing st.captions st.currentEntry st.textLines, ?_⟩
    unfold ParseSRT
    rw [hst]
  · intro lines
    obtain ⟨st, hst⟩ := runLines_ok stepVTT stepVTT_ok lines initVTTState
    refine ⟨flushTrailing st.captions st.currentEntry st.textLines, ?_⟩
    unfold ParseWebVTT
    rw [hst]

theorem c5_witness :
    findTimingMatch ',' ("00:00:01,000 --> 00:00:02,000".data)
      = some ("00:00:01,000".data, "00:00:02,000".data)
    ∧ ((∃ v, parseSRTTime ("00:00:01,000".data) = .ok v)
      ∧ (∃ v, parseSRTTime ("00:00:02,000".data) = .ok v)) :=
  ⟨by decide,
   c5_timing_errors_unreachable.1 ("00:00:01,000 --> 00:00:02,000".data)
     ("00:00:01,000".data) ("00:00:02,000".data) (by decide)⟩

/-! ## Claim C4 -/

/-- C4: A non-blank line (in block-content position, i.e. not in the
discarded sequence-number slot) that does not match the timing regular
expression — such as the malformed timing line `00:00:01-00:00:04` with
a missing arrow — is appended to the current block's text lines and
never produces an error; conversely, an error step can only come from a
line the timing regex matched whose capture failed codec conversion. -/
theorem c4_nonmatching_line_is_text :
    (∀ (st : SRTState) (rawLine : List Char),
      trimSpace rawLine ≠ [] → st.expectingSequence = false →
      findTimingMatch ',' (trimSpace rawLine) = none →
      stepSRT st rawLine
        = .ok { st with textLines := st.textLines ++ [trimSpace rawLine] })
    ∧ (∀ (st : SRTState) (rawLine : List Char) (err : ParseError),
      stepSRT st rawLine = .error err →
      ∃ cap1 cap2, findTimingMatch ',' (trimSpace rawLine) = some (cap1, cap2)
        ∧ ((∃ t, parseSRTTime cap1 = .error t)
          ∨ (∃ t, parseSRTTime cap2 = .error t))) := by
  constructor
  · intro st raw h1 h2 hm
    simp only [stepSRT]
    rw [if_neg h1, if_neg (by rw [h2]; exact Bool.false_ne_true)]
    simp only [hm]
  · intro st raw err h
    simp only [stepSRT] at h
    by_cases h1 : trimSpace raw = []
    · rw [if_pos h1] at h
      by_cases h2 : st.textLines = []
      · rw [if_pos h2] at h; cases h
      · rw [if_neg h2] at h; cases h
    · rw [if_neg h1] at h
      by_cases h2 : st.expectingSequence = true
      · rw [if_pos h2] at h; cases h
      · rw [if_neg h2] at h
        cases hm : findTimingMatch ',' (trimSpace raw) with
        | none => rw [hm] at h; simp only at h; cases h
        | some pr =>
          obtain ⟨m1, m2⟩ := pr
          rw [hm] at h
          simp only at h
          cases hp1 : parseSRTTime m1 with
          | error t => exact ⟨m1, m2, rfl, Or.inl ⟨t, hp1⟩⟩
          | ok v1 =>
            rw [hp1] at h
            simp only at h
            cases hp2 : parseSRTTime m2 with
            | error t => exact ⟨m1, m2, rfl, Or.inr ⟨t, hp2⟩⟩
            | ok v2 =>
              rw [hp2] at h
              simp only at h
              cases h

theorem c4_witness :
    trimSpace ("00:00:01-00:00:04".data) ≠ []
    ∧ (⟨[], ⟨0, 0, []⟩, [], false⟩ : SRTState).expectingSequence = false
    ∧ findTimingMatch ',' (trimSpace ("00:00:01-00:00:04".data)) = none
    ∧ stepSRT (⟨[], ⟨0, 0, []⟩, [], false⟩ : SRTState) ("00:00:01-00:00:04".data)
        = .ok { (⟨[], ⟨0, 0, []⟩, [], false⟩ : SRTState) with
                textLines := (⟨[], ⟨0, 0, []⟩, [], false⟩ : SRTState).textLines
                  ++ [trimSpace ("00:00:01-00:00:04".data)] } :=
  ⟨by decide, rfl, by decide,
   c4_nonmatching_line_is_text.1 ⟨[], ⟨0, 0, []⟩, [], false⟩
     ("00:00:01-00:00:04".data) (by decide) rfl (by decide)⟩

/-! ## Scanner invariant: accumulated text lines and finished entries
are never blank -/

/-- Invariant maintained by both scan loops: every accumulated text line
and every finished entry's text is non-blank after trimming. -/
def ScanInv (textLines : List (List Char)) (captions : List CaptionEntry) : Prop :=
  (∀ l ∈ textLines, trimSpace l ≠ []) ∧ (∀ e ∈ captions, trimSpace e.Text ≠ [])

theorem stepSRT_inv {st st' : SRTState} {raw : List Char}
    (hInv : ScanInv st.textLines st.captions)
    (h : stepSRT st raw = .ok st') : ScanInv st'.textLines st'.captions := by
  obtain ⟨hA, hB⟩ := hInv
  simp only [stepSRT] at h
  by_cases h1 : trimSpace raw = []
  · rw [if_pos h1] at h
    by_cases h2 : st.textLines = []
    · rw [if_pos h2] at h
      cases h
      exact ⟨hA, hB⟩
    · rw [if_neg h2] at h
      cases h
      constructor
      · intro l hl
        simp at hl
      · intro e he
        rcases List.mem_append.mp he with hin | hin
        · exact hB e hin
        · rw [List.mem_singleton] at hin
          subst hin
          exact trim_join_ne_nil st.textLines h2 hA
  · rw [if_neg h1] at h
    by_cases h2 : st.expectingSequence = true
    · rw [if_pos h2] at h
      cases h
      exact ⟨hA, hB⟩
    · rw [if_neg h2] at h
      cases hm : findTimingMatch ',' (trimSpace raw) with
      | none =>
        rw [hm] at h
        simp only at h
        cases h
        constructor
        · intro l hl
          rcases List.mem_append.mp hl with hin | hin
          · exact hA l hin
          · rw [List.mem_singleton] at hin
            subst hin
            exact (trim_ne_nil_iff _).mpr (trim_ne_nil_exists h1)
        · exact hB
      | some pr =>
        obtain ⟨m1, m2⟩ := pr
        rw [hm] at h
        simp only at h
        cases hp1 : parseSRTTime m1 with
        | error t => rw [hp1] at h; simp only at h; cases h
        | ok v1 =>
          rw [hp1] at h
          simp only at h
          cases hp2 : parseSRTTime m2 with
          | error t => rw [hp2] at h; simp only at h; cases h
          | ok v2 =>
            rw [hp2] at h
            simp only at h
            cases h
            exact ⟨hA, hB⟩

theorem stepVTT_inv {st st' : VTTState} {raw : List Char}
    (hInv : ScanInv st.textLines st.captions)
    (h : stepVTT st raw = .ok st') : ScanInv st'.textLines st'.captions := by
  obtain ⟨hA, hB⟩ := hInv
  simp only [stepVTT] at h
  by_cases h0 : st.inHeader = true ∧ (trimSpace raw = []
      ∨ List.isPrefixOf ['W', 'E', 'B', 'V', 'T', 'T'] (trimSpace raw)
      ∨ List.isPrefixOf ['N', 'O', 'T', 'E'] (trimSpace raw))
  · rw [if_pos h0] at h
    cases h
    exact ⟨hA, hB⟩
  · rw [if_neg h0] at h
    by_cases h1 : trimSpace raw = []
    · rw [if_pos h1] at h
      by_cases h2 : st.textLines = []
      · rw [if_pos h2] at h
        cases h
        exact ⟨hA, hB⟩
      · rw [if_neg h2] at h
        cases h
        constructor
        · intro l hl
          simp at hl
        · intro e he
          rcases List.mem_append.mp he with hin | hin
          · exact hB e hin
          · rw [List.mem_singleton] at hin
            subst hin
            exact trim_join_ne_nil st.textLines h2 hA
    · rw [if_neg h1] at h
      cases hm : findTimingMatch '.' (trimSpace raw) with
      | none =>
        rw [hm] at h
        simp only at h
        cases h
        constructor
        · intro l hl
          rcases List.mem_append.mp hl with hin | hin
          · exact hA l hin
          · rw [List.mem_singleton] at hin
            subst hin
            exact (trim_ne_nil_iff _).mpr (trim_ne_nil_exists h1)
        · exact hB
      | some pr =>
        obtain ⟨m1, m2⟩ := pr
        rw [hm] at h
        simp only at h
        cases hp1 : parseWebVTTTime m1 with
        | error t => rw [hp1] at h; simp only at h; cases h
        | ok v1 =>
          rw [hp1] at h
          simp only at h
          cases hp2 : parseWebVTTTime m2 with
          | error t => rw [hp2] at h; simp only at h; cases h
          | ok v2 =>
            rw [hp2] at h
            simp only at h
            cases h
            exact ⟨hA, hB⟩

theorem runLines_inv {σ : Type} (step : σ → List Char → Except ParseError σ)
    (P : σ → Prop)
    (hstep : ∀ {st st' : σ} {l : List Char}, P st → step st l = .ok st' → P st') :
    ∀ (lines : List (List Char)) (st st' : σ),
      P st → runLines step st lines = .ok st' → P st' := by
  intro lines
  induction lines with
  | nil =>
    intro st st' hP h
    simp only [runLines] at h
    cases h
    exact hP
  | cons l ls ih =>
    intro st st' hP h
    unfold runLines at h
    cases hs : step st l with
    | error e => rw [hs] at h; simp only at h; cases h
    | ok st1 =>
      rw [hs] at h
      simp only at h
      exact ih st1 st' (hstep hP hs) h

theorem ParseSRT_entries {lines : List (List Char)} {cs : List CaptionEntry}
    (h : ParseSRT lines = .ok cs) : ∀ e ∈ cs, trimSpace e.Text ≠ [] := by
  unfold ParseSRT at h
  cases hr : runLines stepSRT initSRTState lines with
  | error e => rw [hr] at h; simp only at h; cases h
  | ok st =>
    rw [hr] at h
    simp only at h
    cases h
    have hInv : ScanInv st.textLines st.captions :=
      runLines_inv stepSRT (fun s => ScanInv s.textLines s.captions)
        (fun hP hs => stepSRT_inv hP hs) lines initSRTState st
        ⟨by intro l hl; simp [initSRTState] at hl, by intro e he; simp [initSRTState] at he⟩ hr
    intro e he
    unfold flushTrailing at he
    by_cases ht : st.textLines = []
    · rw [if_pos ht] at he
      exact hInv.2 e he
    · rw [if_neg ht] at he
      rcases List.mem_append.mp he with hin | hin
      · exact hInv.2 e hin
      · rw [List.mem_singleton] at hin
        subst hin
        exact trim_join_ne_nil st.textLines ht hInv.1

theorem ParseWebVTT_entries {lines : List (List Char)} {cs : List CaptionEntry}
    (h : ParseWebVTT lines = .ok cs) : ∀ e ∈ cs, trimSpace e.Text ≠ [] := by
  unfold ParseWebVTT at h
  cases hr : runLines stepVTT initVTTState lines with
  | error e => rw [hr] at h; simp only at h; cases h
  | ok st =>
    rw [hr] at h
    simp only at h
    cases h
    have hInv : ScanInv st.textLines st.captions :=
      runLines_inv stepVTT (fun s => ScanInv s.textLines s.captions)
        (fun hP hs => stepVTT_inv hP hs) lines initVTTState st
        ⟨by intro l hl; simp [initVTTState] at hl, by intro e he; simp [initVTTState] at he⟩ hr
    intro e he
    unfold flushTrailing at he
    by_cases ht : st.textLines = []
    · rw [if_pos ht] at he
      exact hInv.2 e he
    · rw [if_neg ht] at he
      rcases List.mem_append.mp he with hin | hin
      · exact hInv.2 e hin
      · rw [List.mem_singleton] at hin
        subst hin
        exact trim_join_ne_nil st.textLines ht hInv.1

/-! ## Claim C10 -/

/-- C10: Every entry a parser outputs has non-empty text that stays
non-empty after trimming (entries are only finalized from a non-empty
accumulation of non-blank trimmed lines), so `ExtractAllText` on parser
output filters out nothing and just joins all entry texts. -/
theorem c10_parser_output_nonblank :
    (∀ (lines : List (List Char)) (cs : List CaptionEntry),
      ParseSRT lines = .ok cs →
      (∀ e ∈ cs, e.Text ≠ [] ∧ trimSpace e.Text ≠ [])
      ∧ ExtractAllText cs = joinWithSpace (cs.map CaptionEntry.Text))
    ∧ (∀ (lines : List (List Char)) (cs : List CaptionEntry),
      ParseWebVTT lines = .ok cs →
      (∀ e ∈ cs, e.Text ≠ [] ∧ trimSpace e.Text ≠ [])
      ∧ ExtractAllText cs = joinWithSpace (cs.map CaptionEntry.Text)) := by
  constructor
  · intro lines cs h
    have hnb := ParseSRT_entries h
    constructor
    · intro e he
      refine ⟨?_, hnb e he⟩
      intro htext
      apply hnb e he
      rw [htext]
      rfl
    · unfold ExtractAllText
      rw [List.filter_eq_self.mpr]
      intro e he
      simpa using hnb e he
  · intro lines cs h
    have hnb := ParseWebVTT_entries h
    constructor
    · intro e he
      refine ⟨?_, hnb e he⟩
      intro htext
      apply hnb e he
      rw [htext]
      rfl
    · unfold ExtractAllText
      rw [List.filter_eq_self.mpr]
      intro e he
      simpa using hnb e he

theorem c10_witness :
    ParseSRT [['1'], ("00:00:01,000 --> 00:00:02,000".data), ['H', 'i']]
      = .ok [⟨1000000000, 2000000000, ['H', 'i']⟩]
    ∧ ((∀ e ∈ ([⟨1000000000, 2000000000, ['H', 'i']⟩] : List CaptionEntry),
        e.Text ≠ [] ∧ trimSpace e.Text ≠ [])
      ∧ ExtractAllText [⟨1000000000, 2000000000, ['H', 'i']⟩]
          = joinWithSpace
              (([⟨1000000000, 2000000000, ['H', 'i']⟩] : List CaptionEntry).map
                CaptionEntry.Text)) :=
  ⟨by decide,
   c10_parser_output_nonblank.1 [['1'], ("00:00:01,000 --> 00:00:02,000".data), ['H', 'i']]
     [⟨1000000000, 2000000000, ['H', 'i']⟩] (by decide)⟩

end SrtTest
